import Mathlib

/-!
# Verification of the aiomatrix event-filter and encryption-session layer

This file gives a shallow embedding, in Lean 4, of the parts of the
`aiomatrix` Python library that the specification talks about:

* `aiomatrix/api/client/r0/filter.py` — the `EventFilter` class
  (`set_filter`, `remove_filter`, `get_filter_dict`, `get_filtered_event`);
* `aiomatrix/eventmanager.py` — the `__sync_task` poll loop and its
  since-token (cursor) management, together with
  `AioMatrixApi.set_since_token` / `get_since_token` from
  `aiomatrix/api/client/r0/lowlevel.py`;
* `aiomatrix/room.py` — `Room.send_message`, `Room.set_room_key`,
  `Room.set_meg_ses`, the pickle-loading constructor branch,
  `Room.activate_encryption` / `Room.__enc_send_megolm_info`, and
  `Room.wait_enc_message`;
* `aiomatrix/session.py` — `Session.set_olm_session` / `Session.save_obj`.

Python dynamic JSON values are modelled by the `Json` inductive type;
dictionary subscripting (`d[k]`, raising `KeyError` when the key is
missing) is modelled by `Json.get` returning `Option Json`, and a whole
operation that may raise is modelled in the `Option` monad (`none` =
an exception escaped).  Python `list.remove` (raising `ValueError` when
the element is absent) is modelled by `listRemove`.  Truthiness tests
(`if x:`) are modelled by `Json.truthy`.
-/

namespace Aiomatrix

/-- A Python/JSON dynamic value, as handled by the library. -/
inductive Json where
  | null : Json
  | bool' (b : Bool) : Json
  | num (n : Int) : Json
  | str (s : String) : Json
  | arr (elems : List Json) : Json
  | obj (fields : List (String × Json)) : Json

/-- Lookup of a key in an object's field list (first match, like a
Python `dict` whose keys are unique). -/
def lookupField : List (String × Json) → String → Option Json
  | [], _ => none
  | (k', v) :: fs, k => if k' = k then some v else lookupField fs k

/-- `d[k]` on a Python dict: `none` models a raised `KeyError`
(also for subscripting a non-dict). -/
def Json.get : Json → String → Option Json
  | .obj fs, k => lookupField fs k
  | _, _ => none

/-- `x == "s"` in Python, for a dynamic value compared against a string
literal. -/
def Json.isStr : Json → String → Bool
  | .str t, s => t = s
  | _, _ => false

/-- Python truthiness (`if x:`) of a JSON value: `None`, `False`, `0`,
`""`, `[]` and `{}` are falsy. -/
def Json.truthy : Json → Bool
  | .null => false
  | .bool' b => b
  | .num n => n ≠ 0
  | .str s => s ≠ ""
  | .arr xs => !xs.isEmpty
  | .obj fs => !fs.isEmpty

/-- `k in d` for a Python dict: key membership, `False` on non-dicts. -/
def Json.hasKey (j : Json) (k : String) : Bool :=
  (j.get k).isSome

/-- Iterating a value expected to be a list
(`for x in v`): non-lists are treated as an error. -/
def Json.asArr : Json → Option (List Json)
  | .arr xs => some xs
  | _ => none

/-- Iterating a value expected to be a dict (`for key in d`): yields the
keys in insertion order; non-dicts are an error. -/
def Json.objKeys : Json → Option (List String)
  | .obj fs => some (fs.map Prod.fst)
  | _ => none

/-- Python `list.remove x`: removes the first occurrence of `x`,
`none` models the `ValueError` raised when `x` is absent. -/
def listRemove [DecidableEq α] : List α → α → Option (List α)
  | [], _ => none
  | x :: xs, a => if x = a then some xs else (listRemove xs a).map (x :: ·)

/-! ## `EventFilter` (aiomatrix/api/client/r0/filter.py) -/

/-- The mutable state of `EventFilter.__init__`: two type lists and two
`(event, room_id)` pair lists.  `room_id` is `Option String` because the
Python code passes `None` for global event kinds. -/
structure EventFilter where
  timeline_types : List String
  timeline_rooms : List (String × Option String)
  ephemeral_types : List String
  ephemeral_rooms : List (String × Option String)
deriving DecidableEq, Repr

/-- The freshly constructed (empty) filter. -/
def EventFilter.empty : EventFilter :=
  { timeline_types := [], timeline_rooms := [], ephemeral_types := [], ephemeral_rooms := [] }

/-- `EventFilter.set_filter(event, room_id)`: four independent `if`
blocks; the matching `(event, room_id)` pair is appended unconditionally
to the rooms list, the `m.`-type string is appended only when not yet
present. -/
def set_filter (f : EventFilter) (event : String) (room_id : Option String) : EventFilter :=
  let f := if event = "message" then
      { f with timeline_rooms := f.timeline_rooms ++ [(event, room_id)],
               timeline_types := if f.timeline_types.contains "m.room.message" then
                   f.timeline_types else f.timeline_types ++ ["m.room.message"] }
    else f
  let f := if event = "encryption" then
      { f with timeline_rooms := f.timeline_rooms ++ [(event, room_id)],
               timeline_types := if f.timeline_types.contains "m.room.encryption" then
                   f.timeline_types else f.timeline_types ++ ["m.room.encryption"] }
    else f
  let f := if event = "encrypted" then
      { f with timeline_rooms := f.timeline_rooms ++ [(event, room_id)],
               timeline_types := if f.timeline_types.contains "m.room.encrypted" then
                   f.timeline_types else f.timeline_types ++ ["m.room.encrypted"] }
    else f
  let f := if event = "typing" then
      { f with ephemeral_rooms := f.ephemeral_rooms ++ [(event, room_id)],
               ephemeral_types := if f.ephemeral_types.contains "m.typing" then
                   f.ephemeral_types else f.ephemeral_types ++ ["m.typing"] }
    else f
  f

/-- `EventFilter.remove_filter(event, room_id)`: each branch removes the
pair with `list.remove` (which raises `ValueError`, modelled by `none`,
when absent) and, when no other room still requires the event kind,
removes the type string.  Note that the typing branch removes the string
`"m.room.typing"` although `set_filter` inserted `"m.typing"`. -/
def remove_filter (f : EventFilter) (event : String) (room_id : Option String) :
    Option EventFilter := do
  let f ← if event = "message" then do
      let tr ← listRemove f.timeline_rooms (event, room_id)
      let tt ← if (tr.filter (fun e => e.1 = "message")).isEmpty then
          listRemove f.timeline_types "m.room.message"
        else pure f.timeline_types
      pure { f with timeline_rooms := tr, timeline_types := tt }
    else pure f
  let f ← if event = "encryption" then do
      let tr ← listRemove f.timeline_rooms (event, room_id)
      let tt ← if (tr.filter (fun e => e.1 = "encryption")).isEmpty then
          listRemove f.timeline_types "m.room.encryption"
        else pure f.timeline_types
      pure { f with timeline_rooms := tr, timeline_types := tt }
    else pure f
  let f ← if event = "encrypted" then do
      let tr ← listRemove f.timeline_rooms (event, room_id)
      let tt ← if (tr.filter (fun e => e.1 = "encrypted")).isEmpty then
          listRemove f.timeline_types "m.room.encrypted"
        else pure f.timeline_types
      pure { f with timeline_rooms := tr, timeline_types := tt }
    else pure f
  let f ← if event = "typing" then do
      let er ← listRemove f.ephemeral_rooms (event, room_id)
      let et ← if (er.filter (fun e => e.1 = "typing")).isEmpty then
          listRemove f.ephemeral_types "m.room.typing"
        else pure f.ephemeral_types
      pure { f with ephemeral_rooms := er, ephemeral_types := et }
    else pure f
  pure f

/-- `EventFilter.__get_unique_list(rooms)`: the de-duplicated list of
room ids of a pair list (`list(set(room_id for event, room_id in rooms))`). -/
def get_unique_list (rooms : List (String × Option String)) : List (Option String) :=
  (rooms.map Prod.snd).dedup

/-- `None`/string room ids as they appear in the produced filter JSON. -/
def roomJson : Option String → Json
  | none => Json.null
  | some s => Json.str s

/-- `EventFilter.get_filter_dict()`: the server-side filter descriptor
built from the current lists. -/
def get_filter_dict (f : EventFilter) : Json :=
  Json.obj [("room", Json.obj [
    ("ephemeral", Json.obj [
      ("types", Json.arr (f.ephemeral_types.map Json.str)),
      ("rooms", Json.arr ((get_unique_list f.ephemeral_rooms).map roomJson))]),
    ("timeline", Json.obj [
      ("types", Json.arr (f.timeline_types.map Json.str)),
      ("rooms", Json.arr ((get_unique_list f.timeline_rooms).map roomJson))])])]

/-! ## `EventFilter.get_filtered_event` (filter.py lines 103-146) -/

/-- A typed domain event as appended to the result list of
`get_filtered_event`.  In Python each is a tuple whose first component is
a singleton set naming the kind; here the kind is the constructor.  The
payload fields are dynamic JSON values exactly as extracted. -/
inductive FEvent where
  | message (room : Option String) (sender body : Json)
  | encryption (room : Option String) (sender algorithm : Json)
  | encrypted (room : Option String) (sender ciphertext deviceId sessionId : Json)
  | typing (room : Option String) (userIds : Json)
  | invite (room : String) (name sender : Json)
  | prekey (sender content : Json)
  | otk (count : Json)

/-- Runs `f` on each element in order and concatenates the produced event
lists, propagating a raised exception (`none`).  This models the Python
`for` loops that append to `event_list`. -/
def concatMapM (f : α → Option (List β)) : List α → Option (List β)
  | [] => some []
  | x :: xs =>
    match f x, concatMapM f xs with
    | some l, some ls => some (l ++ ls)
    | _, _ => none

/-- The `event['type'] == "m.room.message"` block of the timeline loop:
on a match, extracts `sender` and `content.body` (a missing field raises
`KeyError`, i.e. `none`); otherwise contributes nothing. -/
def timelineMessagePart (rid : Option String) (ev ty : Json) : Option (List FEvent) :=
  if ty.isStr "m.room.message" then
    match ev.get "sender", (ev.get "content").bind (fun c => c.get "body") with
    | some s, some b => some [FEvent.message rid s b]
    | _, _ => none
  else some []

/-- The `event['type'] == "m.room.encryption"` block of the timeline loop. -/
def timelineEncryptionPart (rid : Option String) (ev ty : Json) : Option (List FEvent) :=
  if ty.isStr "m.room.encryption" then
    match ev.get "sender", (ev.get "content").bind (fun c => c.get "algorithm") with
    | some s, some a => some [FEvent.encryption rid s a]
    | _, _ => none
  else some []

/-- The `event['type'] == "m.room.encrypted"` block of the timeline loop. -/
def timelineEncryptedPart (rid : Option String) (ev ty : Json) : Option (List FEvent) :=
  if ty.isStr "m.room.encrypted" then
    match ev.get "sender", ev.get "content" with
    | some s, some c =>
      match c.get "ciphertext", c.get "device_id", c.get "session_id" with
      | some ct, some d, some si => some [FEvent.encrypted rid s ct d si]
      | _, _, _ => none
    | _, _ => none
  else some []

/-- The body of the timeline loop for one event dict: reads
`event['type']` and runs the three type-matching blocks in source
order. -/
def timelineEventOf (rid : Option String) (ev : Json) : Option (List FEvent) :=
  match ev.get "type" with
  | none => none
  | some ty =>
    match timelineMessagePart rid ev ty, timelineEncryptionPart rid ev ty,
          timelineEncryptedPart rid ev ty with
    | some l1, some l2, some l3 => some (l1 ++ l2 ++ l3)
    | _, _, _ => none

/-- One iteration of `for room_id in self.__get_unique_list(self.timeline_rooms)`:
accesses `resp_json['rooms']['join']` (raising when a key is absent),
skips rooms not present in the join dict, and otherwise walks
`[room_id]['timeline']['events']`. -/
def timelineRoomEvents (j : Json) (rid : Option String) : Option (List FEvent) :=
  match (j.get "rooms").bind (fun rooms => rooms.get "join") with
  | none => none
  | some join =>
    match rid with
    | none => some []
    | some r =>
      match join.get r with
      | none => some []
      | some roomObj =>
        match ((roomObj.get "timeline").bind (fun tl => tl.get "events")).bind Json.asArr with
        | none => none
        | some evs => concatMapM (timelineEventOf rid) evs

/-- The body of the ephemeral loop for one event dict: a typing event is
delivered only when `'user_ids' in event['content']` and the list is
truthy (the empty "stopped typing" event is suppressed). -/
def typingEventOf (rid : Option String) (ev : Json) : Option (List FEvent) :=
  match ev.get "content" with
  | none => none
  | some c =>
    match c.get "user_ids" with
    | none => some []
    | some uids => if uids.truthy then some [FEvent.typing rid uids] else some []

/-- One iteration of the ephemeral-rooms loop, walking
`[room_id]['ephemeral']['events']` for rooms present in the join dict. -/
def ephemeralRoomEvents (j : Json) (rid : Option String) : Option (List FEvent) :=
  match (j.get "rooms").bind (fun rooms => rooms.get "join") with
  | none => none
  | some join =>
    match rid with
    | none => some []
    | some r =>
      match join.get r with
      | none => some []
      | some roomObj =>
        match ((roomObj.get "ephemeral").bind (fun eph => eph.get "events")).bind Json.asArr with
        | none => none
        | some evs => concatMapM (typingEventOf rid) evs

/-- Invite-state loop body for one event dict: only events whose content
has a `name` field are delivered. -/
def inviteEventOf (key : String) (ev : Json) : Option (List FEvent) :=
  match ev.get "content" with
  | none => none
  | some c =>
    match c.get "name" with
    | none => some []
    | some nm =>
      match ev.get "sender" with
      | none => none
      | some s => some [FEvent.invite key nm s]

/-- One iteration of `for key in resp_json['rooms']['invite']`, walking
`[key]['invite_state']['events']`. -/
def inviteRoomEvents (inv : Json) (key : String) : Option (List FEvent) :=
  match (((inv.get key).bind (fun r => r.get "invite_state")).bind
      (fun ist => ist.get "events")).bind Json.asArr with
  | none => none
  | some evs => concatMapM (inviteEventOf key) evs

/-- `if resp_json['rooms']['invite']:` and the loop over the invite
dict's keys.  Accessing `['rooms']` (and `['invite']`) raises when the
key is absent; a present-but-falsy invite dict yields nothing. -/
def inviteSection (j : Json) : Option (List FEvent) :=
  match (j.get "rooms").bind (fun rooms => rooms.get "invite") with
  | none => none
  | some inv =>
    if inv.truthy then
      match inv.objKeys with
      | none => none
      | some keys => concatMapM (inviteRoomEvents inv) keys
    else some []

/-- To-device loop body for one event dict; only `m.room.encrypted`
to-device events are delivered, as prekey events. -/
def toDevicePrekeyOf (ev : Json) : Option (List FEvent) :=
  match ev.get "type" with
  | none => none
  | some ty =>
    if ty.isStr "m.room.encrypted" then
      match ev.get "sender", ev.get "content" with
      | some s, some c => some [FEvent.prekey s c]
      | _, _ => none
    else some []

/-- `if resp_json['to_device']:` and the loop over
`resp_json['to_device']['events']`. -/
def toDeviceSection (j : Json) : Option (List FEvent) :=
  match j.get "to_device" with
  | none => none
  | some td =>
    if td.truthy then
      match (td.get "events").bind Json.asArr with
      | none => none
      | some evs => concatMapM toDevicePrekeyOf evs
    else some []

/-- `if resp_json['device_one_time_keys_count']:` — a truthy count dict
yields one `otk` event with its `signed_curve25519` field. -/
def otkSection (j : Json) : Option (List FEvent) :=
  match j.get "device_one_time_keys_count" with
  | none => none
  | some d =>
    if d.truthy then
      match d.get "signed_curve25519" with
      | none => none
      | some c => some [FEvent.otk c]
    else some []

/-- `EventFilter.get_filtered_event(resp_json)`: the five sections in
source order; `none` models an uncaught exception (e.g. `KeyError`). -/
def get_filtered_event (f : EventFilter) (j : Json) : Option (List FEvent) :=
  match concatMapM (timelineRoomEvents j) (get_unique_list f.timeline_rooms),
        concatMapM (ephemeralRoomEvents j) (get_unique_list f.ephemeral_rooms),
        inviteSection j, toDeviceSection j, otkSection j with
  | some l1, some l2, some l3, some l4, some l5 => some (l1 ++ l2 ++ l3 ++ l4 ++ l5)
  | _, _, _, _, _ => none

/-- The room/kind constraint that `get_filtered_event` actually
guarantees for an emitted event: timeline-kind events carry a room id
from the active timeline pair list, typing events carry a room id from
the active ephemeral pair list and a truthy user-id list; invite, prekey
and one-time-key-count events are extracted regardless of the active
filter. -/
def eventOkForFilter (f : EventFilter) : FEvent → Prop
  | .message r _ _ => r ∈ get_unique_list f.timeline_rooms
  | .encryption r _ _ => r ∈ get_unique_list f.timeline_rooms
  | .encrypted r _ _ _ _ => r ∈ get_unique_list f.timeline_rooms
  | .typing r u => r ∈ get_unique_list f.ephemeral_rooms ∧ u.truthy = true
  | .invite _ _ _ => True
  | .prekey _ _ => True
  | .otk _ => True

/-- An event of one of the three timeline kinds, carrying room id `rid`. -/
def IsTimelineEvent (rid : Option String) : FEvent → Prop
  | .message r _ _ => r = rid
  | .encryption r _ _ => r = rid
  | .encrypted r _ _ _ _ => r = rid
  | _ => False

/-- A typing event for room `rid` whose user-id list is truthy. -/
def IsTypingEvent (rid : Option String) : FEvent → Prop
  | .typing r u => r = rid ∧ u.truthy = true
  | _ => False

/-- An event of one of the kinds that `get_filtered_event` extracts
regardless of the active filter. -/
def IsGlobalEvent : FEvent → Prop
  | .invite _ _ _ => True
  | .prekey _ _ => True
  | .otk _ => True
  | _ => False

/-! ## The sync poll loop (eventmanager.py `EventManager.__sync_task`,
lowlevel.py `set_since_token` / `get_since_token`) -/

/-- `if not self.api.get_since_token():` — the since token is `None`
initially (`lowlevel.py` line 18) and `set_since_token` stores the raw
`resp_json["next_batch"]` value, so the priming test is Python
truthiness of an optional dynamic value. -/
def tokenTruthy : Option Json → Bool
  | none => false
  | some j => j.truthy

/-- One iteration of the `while True` poll loop body (eventmanager.py
lines 104-110): read `resp_json["next_batch"]` (stored unconditionally
via `set_since_token`), then extract the events that are pushed onto the
general queue.  `none` models an exception killing the task. -/
def pollOnce (f : EventFilter) (resp : Json) : Option (Json × List FEvent) :=
  match resp.get "next_batch" with
  | none => none
  | some nb =>
    match get_filtered_event f resp with
    | none => none
    | some evs => some (nb, evs)

/-- The poll loop run over a finite prefix of server responses, starting
from since token `tok`: returns the final since token and the
concatenation of all events pushed onto the general queue. -/
def syncLoop (f : EventFilter) (tok : Option Json) : List Json → Option (Option Json × List FEvent)
  | [] => some (tok, [])
  | r :: rs =>
    match pollOnce f r with
    | none => none
    | some (nb, evs) =>
      match syncLoop f (some nb) rs with
      | none => none
      | some (tok', evs') => some (tok', evs ++ evs')

/-- `EventManager.__sync_task`, consuming the given list of server
responses: when the stored since token is falsy, the first response is
the priming sync — its `next_batch` is stored and its payload discarded —
after which the loop processes the remaining responses.  The result is
the final since token, the pushed events, and the number of priming
syncs performed. -/
def sync_task (f : EventFilter) (tok : Option Json) (resps : List Json) :
    Option (Option Json × List FEvent × Nat) :=
  if tokenTruthy tok then
    (syncLoop f tok resps).map (fun p => (p.1, p.2, 0))
  else
    match resps with
    | [] => some (tok, [], 0)
    | r :: rs =>
      match r.get "next_batch" with
      | none => none
      | some nb => (syncLoop f (some nb) rs).map (fun p => (p.1, p.2, 1))

/-- The last element of a list, if any. -/
def lastOf : List α → Option α
  | [] => none
  | [a] => some a
  | _ :: b :: rest => lastOf (b :: rest)

/-- The `next_batch` field of the last response of a run, i.e. the value
the cursor must hold afterwards. -/
def nextBatchOfLast (resps : List Json) : Option Json :=
  (lastOf resps).bind (fun r => r.get "next_batch")

/-- A minimal well-formed priming response. -/
def primingResp : Json := Json.obj [("next_batch", Json.str "s1")]

/-- A minimal well-formed poll response carrying no events. -/
def emptyPollResp : Json :=
  Json.obj [("next_batch", Json.str "s2"),
            ("rooms", Json.obj [("join", Json.obj []), ("invite", Json.obj [])]),
            ("to_device", Json.obj []),
            ("device_one_time_keys_count", Json.obj [])]

/-! ## `Room.activate_encryption` member loop (room.py lines 172-246) -/

/-- The message of the `AiomatrixError` raised by
`Room.__enc_send_megolm_info` when no one-time key is available
(room.py lines 228-230). -/
def otkError (uid did : String) : String :=
  "Room encryption aborted. No OTKs available for:  " ++ uid ++ ",  " ++ did

/-- `Room.__enc_send_megolm_info(partner_user_id, partner_device_id)`,
abstracted over the one-time-key claim: `otk` stands for
`api.keys_claim_and_verify` (a transport call whose implementation is
not part of the embedded state).  A falsy claim result raises
`AiomatrixError`; otherwise the device's bootstrap completes (olm
session created and stored, prekey and room-key messages sent) and the
`(user, device)` pair is recorded as bootstrapped. -/
def enc_send_megolm_info (otk : String → String → Option String) (uid did : String) :
    Except String (String × String) :=
  match otk uid did with
  | none => Except.error (otkError uid did)
  | some _ => Except.ok (uid, did)

/-- The inner `for device_id in device_ids` loop of
`Room.activate_encryption`: each device is bootstrapped in turn; a
raised `AiomatrixError` escapes the loop, so the devices after the
failing one are not processed.  Returns the bootstrapped devices and the
escaped error, if any. -/
def bootstrapDevices (otk : String → String → Option String) (uid : String) :
    List String → List (String × String) × Option String
  | [] => ([], none)
  | d :: ds =>
    match enc_send_megolm_info otk uid d with
    | Except.error e => ([], some e)
    | Except.ok p =>
      let r := bootstrapDevices otk uid ds
      (p :: r.1, r.2)

/-- The member loop of `Room.activate_encryption` (room.py lines
201-209): every member except the own user has each of their devices
bootstrapped; a raised error propagates out of `activate_encryption`,
aborting the remaining members as well. -/
def activate_encryption_members (otk : String → String → Option String) (own : String)
    (deviceIds : String → List String) : List String → List (String × String) × Option String
  | [] => ([], none)
  | u :: us =>
    if u = own then activate_encryption_members otk own deviceIds us
    else
      match bootstrapDevices otk u (deviceIds u) with
      | (bs, some e) => (bs, some e)
      | (bs, none) =>
        let r := activate_encryption_members otk own deviceIds us
        (bs ++ r.1, r.2)

/-- Helper for stating what full isolation would bootstrap: all
`(user, device)` pairs of the given members, own user excluded, in loop
order. -/
def memberDevs (own : String) (deviceIds : String → List String) :
    List String → List (String × String)
  | [] => []
  | u :: us =>
    if u = own then memberDevs own deviceIds us
    else (deviceIds u).map (fun d => (u, d)) ++ memberDevs own deviceIds us

/-! ## `Room.wait_enc_message` (room.py lines 360-383) -/

/-- Observable outcome of handling one encrypted message event: the log
lines emitted (format string and argument), whether the handler slept,
how many `room_keys` lookups it performed, the tuples re-injected into
the general queue, and whether an exception escaped the handler body
(which would kill the background task but reaches no subscriber). -/
structure HandlerResult where
  logs : List (String × Json)
  slept : Bool
  lookups : Nat
  injected : List (String × Json × Json × Json)
  taskError : Bool

/-- The one `logging.debug` format string executed by
`Room.wait_enc_message` (room.py line 366). -/
def receiptLogLine : String := "Received m.room.encrypted message for this room: \"%s\""

/-- The tail of the handler once a session was found: decrypt (the
session is modelled as the composite `decrypt` + `json.loads` function),
read `msg_json['content']['body']`, and `put_nowait` the plaintext tuple
`("message", room, sender, body)` into the general queue.  A decrypt or
field failure is an exception inside the task. -/
def finishDecrypt (logs : List (String × Json)) (slept : Bool) (lookups : Nat)
    (ses : Json → Option Json) (room sender ct : Json) : HandlerResult :=
  match ses ct with
  | none => { logs := logs, slept := slept, lookups := lookups, injected := [], taskError := true }
  | some plain =>
    match (plain.get "content").bind (fun c => c.get "body") with
    | none =>
      { logs := logs, slept := slept, lookups := lookups, injected := [], taskError := true }
    | some body =>
      { logs := logs, slept := slept, lookups := lookups,
        injected := [("message", room, sender, body)], taskError := false }

/-- One iteration of `Room.wait_enc_message` for a received encrypted
message tuple `(room, sender, ciphertext, device, session_id)`.
`keys1` is the `room_keys` lookup at arrival, `keys2` the lookup after
the `asyncio.sleep(5)` retry window (the dict may have gained the
session in between). -/
def wait_enc_message_once
    (keys1 keys2 : Json × Json × Json → Option (Json → Option Json))
    (room sender ct dev sid : Json) : HandlerResult :=
  let logs := [(receiptLogLine, room)]
  match keys1 (sender, dev, sid) with
  | some ses => finishDecrypt logs false 1 ses room sender ct
  | none =>
    match keys2 (sender, dev, sid) with
    | some ses => finishDecrypt logs true 2 ses room sender ct
    | none => { logs := logs, slept := true, lookups := 2, injected := [], taskError := false }

/-! ## Room and session persistence (room.py lines 34-118, session.py
lines 151-165, 276-283) -/

/-- A `room_keys` dict key: `(user_id, device_id, session_id)`, where
the own outbound group session is stored under session id `None`. -/
structure RoomKeyId where
  user : String
  device : String
  session : Option String
deriving DecidableEq, Repr

/-- A MegOlm session object held in `room_keys`: either a reference to
the room's single outbound group session (`self.meg_ses` — stored in the
dict by `set_meg_ses`, so the dict entry and the attribute alias the
same Python object), or an independent inbound session whose pickled
payload never changes here. -/
inductive MegSession where
  | outbound
  | inbound (pickled : Nat)
deriving DecidableEq, Repr

/-- The encryption-relevant state of a `Room` plus its per-room pickle
file `megOlmSessions_<room_id>.pkl` (`none` = file does not exist).
`ratchet` is the outbound group session's ratchet position; pickling the
outbound session captures the current ratchet. -/
structure RoomState where
  is_encrypted : Bool
  has_meg_ses : Bool
  ratchet : Nat
  room_keys : List (RoomKeyId × MegSession)
  store : Option (List (RoomKeyId × Nat))
deriving DecidableEq, Repr

/-- `session.pickle(password)` of a MegOlm session at the given outbound
ratchet position. -/
def pickleMeg (ratchet : Nat) : MegSession → Nat
  | .outbound => ratchet
  | .inbound n => n

/-- Python dict assignment `d[k] = v`: replaces in place when the key
exists, appends otherwise (insertion order preserved). -/
def dictUpdate [DecidableEq κ] (d : List (κ × α)) (k : κ) (v : α) : List (κ × α) :=
  if (d.map Prod.fst).contains k then
    d.map (fun p => if p.1 = k then (k, v) else p)
  else d ++ [(k, v)]

/-- Python dict lookup `d.get(k)` on the association-list model. -/
def dictLookup [DecidableEq κ] (d : List (κ × α)) (k : κ) : Option α :=
  (d.find? (fun p => decide (p.1 = k))).map Prod.snd

/-- `Room.set_room_key(user_id, device_id, meg_ses_id, meg_ses)`: stores
the entry in `room_keys`, then pickles **the whole dict** into `tmp_dict`
and `save_obj`s it as `megOlmSessions_<room_id>` (room.py lines 61-76,
with `Session.save_obj` overwriting the pickle file). -/
def set_room_key (st : RoomState) (k : RoomKeyId) (v : MegSession) : RoomState :=
  let rk := dictUpdate st.room_keys k v
  { st with room_keys := rk,
            store := some (rk.map (fun p => (p.1, pickleMeg st.ratchet p.2))) }

/-- `Room.set_meg_ses(meg_ses)`: sets `self.meg_ses` (here: a fresh
outbound session at ratchet `freshRatchet`) and registers it in
`room_keys` under `(user_id, device_id, None)` via `set_room_key`. -/
def set_meg_ses (st : RoomState) (own_user own_device : String) (freshRatchet : Nat) :
    RoomState :=
  set_room_key { st with has_meg_ses := true, ratchet := freshRatchet }
    ⟨own_user, own_device, none⟩ MegSession.outbound

/-- The pickle-loading branch of `Room.__init__` (room.py lines 42-59):
for each stored entry, a `None` session id restores `self.meg_ses` (with
`continue` — the entry is **not** put into `room_keys`), any other entry
becomes an inbound session in `room_keys`; the room is then marked
encrypted.  The pickle file itself is left as it was. -/
def loadRoom (tmp : List (RoomKeyId × Nat)) : RoomState :=
  tmp.foldl
    (fun st p =>
      if p.1.session = none then { st with has_meg_ses := true, ratchet := p.2 }
      else { st with room_keys := st.room_keys ++ [(p.1, MegSession.inbound p.2)] })
    { is_encrypted := true, has_meg_ses := false, ratchet := 0, room_keys := [], store := some tmp }

/-- The externally visible steps of one `send_message` call, in order. -/
inductive SendStep where
  | encSend
  | persist
  | plainSend
deriving DecidableEq, Repr

/-- Modelled from the spec: `api.send_enc(room_id, device_id,
device_key, meg_ses, message)` — the version called by `Room.send_message`
is absent from src's `lowlevel.py`, which only contains an outdated
prototype taking an already-encrypted payload — "encrypts with the group
session, advances its ratchet ... and transmits". -/
def send_enc (st : RoomState) : RoomState :=
  { st with ratchet := st.ratchet + 1 }

/-- `Room.send_message(message)` (room.py lines 99-118) for a room whose
`meg_ses` exists (the `meg_ses is None` case first runs the
`activate_encryption` network bootstrap, modelled separately): encrypt
and transmit via `send_enc`, then pickle **`room_keys`** and `save_obj`
the result, then return.  An unencrypted room sends plaintext. -/
def send_message (st : RoomState) : Option (RoomState × List SendStep) :=
  if st.is_encrypted then
    if st.has_meg_ses then
      let st1 := send_enc st
      let st2 := { st1 with
        store := some (st1.room_keys.map (fun p => (p.1, pickleMeg st1.ratchet p.2))) }
      some (st2, [SendStep.encSend, SendStep.persist])
    else none
  else some (st, [SendStep.plainSend])

/-- Lookup of a pickled session in the persisted store. -/
def storeLookup (st : RoomState) (k : RoomKeyId) : Option Nat :=
  st.store.bind (fun s => (s.find? (fun p => decide (p.1 = k))).map Prod.snd)

/-- The state of `Session`'s olm-session registry together with the
`olmSessions.pkl` store; sessions (`α`) and their pickled form (`β`) are
abstract, related by the `pickle` function. -/
structure OlmStore (α β : Type) where
  olm_sessions : List ((String × String) × α)
  store : Option (List ((String × String) × β))

/-- `Session.set_olm_session(user_id, key, ses)` (session.py lines
151-165): stores the session under `(user_id, key)`, then pickles the
**whole** `olm_sessions` dict and `save_obj`s it as `"olmSessions"`. -/
def set_olm_session (pickle : α → β) (s : OlmStore α β) (uid key : String) (ses : α) :
    OlmStore α β :=
  let d := dictUpdate s.olm_sessions (uid, key) ses
  { olm_sessions := d,
    store := some (d.map (fun p => (p.1, pickle p.2))) }

end Aiomatrix

namespace Aiomatrix

/-! ## Theorems about `set_filter` / `remove_filter` (claims C1, C8, C9) -/

/-- `list.remove` on a list not containing the element models a raised
`ValueError`. -/
theorem listRemove_of_not_mem [DecidableEq α] (l : List α) (a : α) (h : a ∉ l) :
    listRemove l a = none := by
  induction l with
  | nil => rfl
  | cons x xs ih =>
    rw [List.mem_cons, not_or] at h
    simp only [listRemove, if_neg (Ne.symm h.1), ih h.2, Option.map_none']

/-- C1: For every event kind (message, typing, encryption, encrypted) and
every room id, `set_filter(kind, room)` on an empty `EventFilter` followed
by `remove_filter(kind, room)` restores the empty filter without error.
This holds for message, encryption and encrypted, but **fails for typing**:
`set_filter` appends `"m.typing"` to `ephemeral_types` while
`remove_filter` tries to `list.remove` the string `"m.room.typing"`, which
is not in the list, so Python raises `ValueError`.  This theorem evaluates
the code at the failing input: the typing round trip raises (result
`none`) while the other three kinds do restore the empty filter. -/
theorem set_remove_typing_raises :
    remove_filter (set_filter EventFilter.empty "typing" (some "!r:example.org"))
        "typing" (some "!r:example.org") = none ∧
    remove_filter (set_filter EventFilter.empty "message" (some "!r:example.org"))
        "message" (some "!r:example.org") = some EventFilter.empty ∧
    remove_filter (set_filter EventFilter.empty "encryption" (some "!r:example.org"))
        "encryption" (some "!r:example.org") = some EventFilter.empty ∧
    remove_filter (set_filter EventFilter.empty "encrypted" (some "!r:example.org"))
        "encrypted" (some "!r:example.org") = some EventFilter.empty := by
  decide

/-- C8 (counterexample): the claim says removing a `(kind, room)` pair
that is not in the active filter set raises for *every* event kind.  For
the kind `"invite"` (a real subscriber kind, passed to `remove_filter` by
`EventManager.remove_subscriber`) none of the four branches applies:
`remove_filter` silently returns the unchanged filter instead of raising. -/
theorem remove_absent_invite_silent :
    remove_filter EventFilter.empty "invite" none = some EventFilter.empty := by
  decide

/-- C8 (amended): for the four *filterable* kinds (message, encryption,
encrypted, typing), removing a pair that is not in the corresponding rooms
list raises (`ValueError` from `list.remove`, modelled by `none`); for any
other kind (invite, prekey, otk) `remove_filter` is a silent no-op. -/
theorem remove_filter_absent_raises (f : EventFilter) (room : Option String)
    (kind : String)
    (hk : kind = "message" ∨ kind = "encryption" ∨ kind = "encrypted" ∨ kind = "typing")
    (htl : kind ≠ "typing" → ¬ (kind, room) ∈ f.timeline_rooms)
    (heph : kind = "typing" → ¬ (kind, room) ∈ f.ephemeral_rooms) :
    remove_filter f kind room = none := by
  rcases hk with h | h | h | h <;> subst h
  · have h1 := listRemove_of_not_mem f.timeline_rooms ("message", room) (htl (by decide))
    simp [remove_filter, h1]
  · have h1 := listRemove_of_not_mem f.timeline_rooms ("encryption", room) (htl (by decide))
    simp [remove_filter, h1]
  · have h1 := listRemove_of_not_mem f.timeline_rooms ("encrypted", room) (htl (by decide))
    simp [remove_filter, h1]
  · have h1 := listRemove_of_not_mem f.ephemeral_rooms ("typing", room) (heph rfl)
    simp [remove_filter, h1]

/-- C8 amended-claim witness at a concrete input: removing
`("message", "!r")` from the empty filter raises. -/
theorem remove_filter_absent_raises_witness :
    remove_filter EventFilter.empty "message" (some "!r") = none :=
  remove_filter_absent_raises EventFilter.empty (some "!r") "message"
    (Or.inl rfl) (fun _ => by decide) (fun h => by simp at h)

/-- C9 (counterexample): `set_filter` is *not* idempotent.  Applying
`set_filter("message", "!r")` twice to the empty filter appends the pair
`("message", "!r")` twice to `timeline_rooms`, so the resulting state
differs from applying it once. -/
theorem set_filter_not_idempotent :
    set_filter (set_filter EventFilter.empty "message" (some "!r")) "message" (some "!r") ≠
      set_filter EventFilter.empty "message" (some "!r") := by
  decide

/-- C9 (amended): `set_filter` is not idempotent on the filter state; a
second identical `set_filter` appends a duplicate `(kind, room)` pair to
the rooms list (the type list is unchanged, so the *derived filter
dictionary* is unchanged), and a single `remove_filter` afterwards only
returns to the single-`set_filter` state — the pair is still in the
active set, and a second `remove_filter` is needed to clear it. -/
theorem set_filter_twice (room : Option String) (kind : String)
    (hk : kind = "message" ∨ kind = "encryption" ∨ kind = "encrypted" ∨ kind = "typing") :
    set_filter (set_filter EventFilter.empty kind room) kind room ≠
        set_filter EventFilter.empty kind room ∧
    get_filter_dict (set_filter (set_filter EventFilter.empty kind room) kind room) =
        get_filter_dict (set_filter EventFilter.empty kind room) ∧
    remove_filter (set_filter (set_filter EventFilter.empty kind room) kind room) kind room =
        some (set_filter EventFilter.empty kind room) := by
  rcases hk with h | h | h | h <;> subst h <;>
    refine ⟨by simp [set_filter, EventFilter.empty], ?_, ?_⟩ <;>
    simp [set_filter, EventFilter.empty, get_filter_dict, get_unique_list,
      remove_filter, listRemove]

/-- C9 amended-claim witness at a concrete input (`kind = "typing"`,
`room = "!r"`). -/
theorem set_filter_twice_witness :
    set_filter (set_filter EventFilter.empty "typing" (some "!r")) "typing" (some "!r") ≠
        set_filter EventFilter.empty "typing" (some "!r") ∧
    get_filter_dict (set_filter (set_filter EventFilter.empty "typing" (some "!r")) "typing"
        (some "!r")) = get_filter_dict (set_filter EventFilter.empty "typing" (some "!r")) ∧
    remove_filter (set_filter (set_filter EventFilter.empty "typing" (some "!r")) "typing"
        (some "!r")) "typing" (some "!r") =
      some (set_filter EventFilter.empty "typing" (some "!r")) :=
  set_filter_twice (some "!r") "typing" (by tauto)

end Aiomatrix

namespace Aiomatrix

/-! ## Theorems about `get_filtered_event` (claims C4, C5) -/

/-- Membership inversion for the loop combinator: an event in the
concatenated output comes from some iteration. -/
theorem mem_concatMapM {f : α → Option (List β)} {xs : List α} {l : List β}
    (h : concatMapM f xs = some l) {b : β} (hb : b ∈ l) :
    ∃ x ∈ xs, ∃ lx, f x = some lx ∧ b ∈ lx := by
  induction xs generalizing l with
  | nil =>
    rw [concatMapM] at h
    injection h with h
    subst h
    simp at hb
  | cons x xs ih =>
    rw [concatMapM] at h
    cases hfx : f x with
    | none => rw [hfx] at h; exact absurd h (by simp)
    | some lx =>
      cases hrec : concatMapM f xs with
      | none => rw [hfx, hrec] at h; exact absurd h (by simp)
      | some ls =>
        rw [hfx, hrec] at h
        injection h with h
        subst h
        rcases List.mem_append.mp hb with hbl | hbr
        · exact ⟨x, List.mem_cons_self x xs, lx, hfx, hbl⟩
        · obtain ⟨y, hy, ly, hfy, hby⟩ := ih hrec hbr
          exact ⟨y, List.mem_cons_of_mem x hy, ly, hfy, hby⟩

theorem timelineMessagePart_sound {rid : Option String} {ev ty : Json} {l : List FEvent}
    {e : FEvent} (h : timelineMessagePart rid ev ty = some l) (he : e ∈ l) :
    IsTimelineEvent rid e := by
  rw [timelineMessagePart] at h
  split at h
  · split at h
    · injection h with h; subst h
      simp only [List.mem_singleton] at he
      subst he
      simp [IsTimelineEvent]
    · exact absurd h (by simp)
  · injection h with h; subst h; simp at he

theorem timelineEncryptionPart_sound {rid : Option String} {ev ty : Json} {l : List FEvent}
    {e : FEvent} (h : timelineEncryptionPart rid ev ty = some l) (he : e ∈ l) :
    IsTimelineEvent rid e := by
  rw [timelineEncryptionPart] at h
  split at h
  · split at h
    · injection h with h; subst h
      simp only [List.mem_singleton] at he
      subst he
      simp [IsTimelineEvent]
    · exact absurd h (by simp)
  · injection h with h; subst h; simp at he

theorem timelineEncryptedPart_sound {rid : Option String} {ev ty : Json} {l : List FEvent}
    {e : FEvent} (h : timelineEncryptedPart rid ev ty = some l) (he : e ∈ l) :
    IsTimelineEvent rid e := by
  rw [timelineEncryptedPart] at h
  split at h
  · split at h
    · split at h
      · injection h with h; subst h
        simp only [List.mem_singleton] at he
        subst he
        simp [IsTimelineEvent]
      · exact absurd h (by simp)
    · exact absurd h (by simp)
  · injection h with h; subst h; simp at he

theorem timelineEventOf_sound {rid : Option String} {ev : Json} {l : List FEvent}
    {e : FEvent} (h : timelineEventOf rid ev = some l) (he : e ∈ l) :
    IsTimelineEvent rid e := by
  rw [timelineEventOf] at h
  split at h
  · exact absurd h (by simp)
  · split at h
    · rename_i l1 l2 l3 h1 h2 h3
      injection h with h
      subst h
      rcases List.mem_append.mp he with h12 | hm3
      · rcases List.mem_append.mp h12 with hm1 | hm2
        · exact timelineMessagePart_sound h1 hm1
        · exact timelineEncryptionPart_sound h2 hm2
      · exact timelineEncryptedPart_sound h3 hm3
    · exact absurd h (by simp)

theorem timelineRoomEvents_sound {j : Json} {rid : Option String} {l : List FEvent}
    {e : FEvent} (h : timelineRoomEvents j rid = some l) (he : e ∈ l) :
    IsTimelineEvent rid e := by
  rw [timelineRoomEvents] at h
  split at h
  · exact absurd h (by simp)
  · split at h
    · injection h with h; subst h; simp at he
    · split at h
      · injection h with h; subst h; simp at he
      · split at h
        · exact absurd h (by simp)
        · obtain ⟨x, _, lx, hfx, hbx⟩ := mem_concatMapM h he
          exact timelineEventOf_sound hfx hbx

theorem typingEventOf_sound {rid : Option String} {ev : Json} {l : List FEvent}
    {e : FEvent} (h : typingEventOf rid ev = some l) (he : e ∈ l) :
    IsTypingEvent rid e := by
  rw [typingEventOf] at h
  split at h
  · exact absurd h (by simp)
  · split at h
    · injection h with h; subst h; simp at he
    · split at h
      · rename_i uids _ _ hu
        injection h with h; subst h
        simp only [List.mem_singleton] at he
        subst he
        exact ⟨rfl, hu⟩
      · injection h with h; subst h; simp at he

theorem ephemeralRoomEvents_sound {j : Json} {rid : Option String} {l : List FEvent}
    {e : FEvent} (h : ephemeralRoomEvents j rid = some l) (he : e ∈ l) :
    IsTypingEvent rid e := by
  rw [ephemeralRoomEvents] at h
  split at h
  · exact absurd h (by simp)
  · split at h
    · injection h with h; subst h; simp at he
    · split at h
      · injection h with h; subst h; simp at he
      · split at h
        · exact absurd h (by simp)
        · obtain ⟨x, _, lx, hfx, hbx⟩ := mem_concatMapM h he
          exact typingEventOf_sound hfx hbx

theorem inviteEventOf_sound {key : String} {ev : Json} {l : List FEvent}
    {e : FEvent} (h : inviteEventOf key ev = some l) (he : e ∈ l) :
    IsGlobalEvent e := by
  rw [inviteEventOf] at h
  split at h
  · exact absurd h (by simp)
  · split at h
    · injection h with h; subst h; simp at he
    · split at h
      · exact absurd h (by simp)
      · injection h with h; subst h
        simp only [List.mem_singleton] at he
        subst he
        trivial

theorem inviteRoomEvents_sound {inv : Json} {key : String} {l : List FEvent}
    {e : FEvent} (h : inviteRoomEvents inv key = some l) (he : e ∈ l) :
    IsGlobalEvent e := by
  rw [inviteRoomEvents] at h
  split at h
  · exact absurd h (by simp)
  · obtain ⟨x, _, lx, hfx, hbx⟩ := mem_concatMapM h he
    exact inviteEventOf_sound hfx hbx

theorem inviteSection_sound {j : Json} {l : List FEvent}
    {e : FEvent} (h : inviteSection j = some l) (he : e ∈ l) :
    IsGlobalEvent e := by
  rw [inviteSection] at h
  split at h
  · exact absurd h (by simp)
  · split at h
    · split at h
      · exact absurd h (by simp)
      · obtain ⟨x, _, lx, hfx, hbx⟩ := mem_concatMapM h he
        exact inviteRoomEvents_sound hfx hbx
    · injection h with h; subst h; simp at he

theorem toDevicePrekeyOf_sound {ev : Json} {l : List FEvent}
    {e : FEvent} (h : toDevicePrekeyOf ev = some l) (he : e ∈ l) :
    IsGlobalEvent e := by
  rw [toDevicePrekeyOf] at h
  split at h
  · exact absurd h (by simp)
  · split at h
    · split at h
      · injection h with h; subst h
        simp only [List.mem_singleton] at he
        subst he
        trivial
      · exact absurd h (by simp)
    · injection h with h; subst h; simp at he

theorem toDeviceSection_sound {j : Json} {l : List FEvent}
    {e : FEvent} (h : toDeviceSection j = some l) (he : e ∈ l) :
    IsGlobalEvent e := by
  rw [toDeviceSection] at h
  split at h
  · exact absurd h (by simp)
  · split at h
    · split at h
      · exact absurd h (by simp)
      · obtain ⟨x, _, lx, hfx, hbx⟩ := mem_concatMapM h he
        exact toDevicePrekeyOf_sound hfx hbx
    · injection h with h; subst h; simp at he

theorem otkSection_sound {j : Json} {l : List FEvent}
    {e : FEvent} (h : otkSection j = some l) (he : e ∈ l) :
    IsGlobalEvent e := by
  rw [otkSection] at h
  split at h
  · exact absurd h (by simp)
  · split at h
    · split at h
      · exact absurd h (by simp)
      · injection h with h; subst h
        simp only [List.mem_singleton] at he
        subst he
        trivial
    · injection h with h; subst h; simp at he

theorem eventOk_of_timeline {f : EventFilter} {rid : Option String}
    (hr : rid ∈ get_unique_list f.timeline_rooms) {e : FEvent}
    (h : IsTimelineEvent rid e) : eventOkForFilter f e := by
  cases e <;> simp_all [IsTimelineEvent, eventOkForFilter]

theorem eventOk_of_typing {f : EventFilter} {rid : Option String}
    (hr : rid ∈ get_unique_list f.ephemeral_rooms) {e : FEvent}
    (h : IsTypingEvent rid e) : eventOkForFilter f e := by
  cases e <;> simp_all [IsTypingEvent, eventOkForFilter]

theorem eventOk_of_global {f : EventFilter} {e : FEvent}
    (h : IsGlobalEvent e) : eventOkForFilter f e := by
  cases e <;> simp_all [IsGlobalEvent, eventOkForFilter]

end Aiomatrix

namespace Aiomatrix

/-- C4 (amended): what `get_filtered_event` actually guarantees about
emitted kinds.  Every event in a successful result satisfies
`eventOkForFilter`: a message / encryption / encrypted event carries a
room id from the active timeline pair list (but the three timeline kinds
are *not* distinguished per subscription), a typing event carries a room
id from the active ephemeral pair list and a truthy user-id list, and
invite / prekey / one-time-key-count events are extracted regardless of
the active filter. -/
theorem get_filtered_event_room_sound (f : EventFilter) (j : Json) (l : List FEvent)
    (hl : get_filtered_event f j = some l) (e : FEvent) (he : e ∈ l) :
    eventOkForFilter f e := by
  rw [get_filtered_event] at hl
  split at hl
  · rename_i l1 l2 l3 l4 l5 h1 h2 h3 h4 h5
    injection hl with hl
    subst hl
    rcases List.mem_append.mp he with h1234 | hm5
    · rcases List.mem_append.mp h1234 with h123 | hm4
      · rcases List.mem_append.mp h123 with h12 | hm3
        · rcases List.mem_append.mp h12 with hm1 | hm2
          · obtain ⟨rid, hrid, lx, hfx, hbx⟩ := mem_concatMapM h1 hm1
            exact eventOk_of_timeline hrid (timelineRoomEvents_sound hfx hbx)
          · obtain ⟨rid, hrid, lx, hfx, hbx⟩ := mem_concatMapM h2 hm2
            exact eventOk_of_typing hrid (ephemeralRoomEvents_sound hfx hbx)
        · exact eventOk_of_global (inviteSection_sound h3 hm3)
      · exact eventOk_of_global (toDeviceSection_sound h4 hm4)
    · exact eventOk_of_global (otkSection_sound h5 hm5)
  · exact absurd hl (by simp)

/-- C4 (counterexample): the claim as stated is false.  With only
`("message", "!r")` in the active filter (so `timeline_types` is exactly
`["m.room.message"]` and no ephemeral kind is set), a well-formed sync
response whose `!r` timeline contains an `m.room.encryption` event makes
`get_filtered_event` emit an event of kind `encryption` — a kind that was
not present in the active filter. -/
theorem get_filtered_event_emits_unsubscribed_kind :
    get_filtered_event (set_filter EventFilter.empty "message" (some "!r"))
      (Json.obj [
        ("rooms", Json.obj [
          ("join", Json.obj [("!r", Json.obj [("timeline", Json.obj [("events", Json.arr [
            Json.obj [("type", Json.str "m.room.encryption"), ("sender", Json.str "@s"),
                      ("content", Json.obj [("algorithm", Json.str "m.megolm.v1.aes-sha2")])]])])])]),
          ("invite", Json.obj [])]),
        ("to_device", Json.obj []),
        ("device_one_time_keys_count", Json.obj [])]) =
      some [FEvent.encryption (some "!r") (Json.str "@s") (Json.str "m.megolm.v1.aes-sha2")] ∧
    (set_filter EventFilter.empty "message" (some "!r")).timeline_types = ["m.room.message"] ∧
    (set_filter EventFilter.empty "message" (some "!r")).ephemeral_types = [] := by
  refine ⟨rfl, by decide, by decide⟩

/-- C4 amended-claim witness at a concrete input: the single message
event extracted from a well-formed response satisfies
`eventOkForFilter`. -/
theorem get_filtered_event_room_sound_witness :
    eventOkForFilter (set_filter EventFilter.empty "message" (some "!r"))
      (FEvent.message (some "!r") (Json.str "@s") (Json.str "hi")) :=
  get_filtered_event_room_sound (set_filter EventFilter.empty "message" (some "!r"))
    (Json.obj [
      ("rooms", Json.obj [
        ("join", Json.obj [("!r", Json.obj [("timeline", Json.obj [("events", Json.arr [
          Json.obj [("type", Json.str "m.room.message"), ("sender", Json.str "@s"),
                    ("content", Json.obj [("body", Json.str "hi")])]])])])]),
        ("invite", Json.obj [])]),
      ("to_device", Json.obj []),
      ("device_one_time_keys_count", Json.obj [])])
    [FEvent.message (some "!r") (Json.str "@s") (Json.str "hi")] rfl
    (FEvent.message (some "!r") (Json.str "@s") (Json.str "hi")) (List.mem_singleton.mpr rfl)

/-- C5 (counterexample): the claim says a response with an absent section
is handled without error; but `get_filtered_event` applied to a response
without a `rooms` key hits `resp_json['rooms']` in the invite check and
raises `KeyError` (modelled by `none`), even with an empty active filter. -/
theorem get_filtered_event_missing_rooms_raises :
    get_filtered_event EventFilter.empty (Json.obj []) = none := rfl

/-- C5 (amended): `get_filtered_event` tolerates *present but falsy*
sections — with all three top-level sections present, an empty join dict
and falsy invite / to-device / one-time-key-count sections it returns
normally with no events — but a response in which the `rooms`,
`to_device` or `device_one_time_keys_count` key is *absent* makes it
raise `KeyError` (`none`), whatever the active filter is. -/
theorem get_filtered_event_absent_sections (f : EventFilter) (j : Json) :
    (j.get "rooms" = none ∨ j.get "to_device" = none ∨
        j.get "device_one_time_keys_count" = none →
      get_filtered_event f j = none) ∧
    (∀ rooms join inv td dc, j.get "rooms" = some rooms → rooms.get "join" = some join →
      rooms.get "invite" = some inv → inv.truthy = false →
      j.get "to_device" = some td → td.truthy = false →
      j.get "device_one_time_keys_count" = some dc → dc.truthy = false →
      (∀ r, join.get r = none) →
      get_filtered_event f j = some []) := by
  constructor
  · intro h
    rcases h with h | h | h
    · have hx : inviteSection j = none := by rw [inviteSection, h]; rfl
      cases h1 : concatMapM (timelineRoomEvents j) (get_unique_list f.timeline_rooms) <;>
        cases h2 : concatMapM (ephemeralRoomEvents j) (get_unique_list f.ephemeral_rooms) <;>
          simp [get_filtered_event, hx, h1, h2]
    · have hx : toDeviceSection j = none := by rw [toDeviceSection, h]
      cases h1 : concatMapM (timelineRoomEvents j) (get_unique_list f.timeline_rooms) <;>
        cases h2 : concatMapM (ephemeralRoomEvents j) (get_unique_list f.ephemeral_rooms) <;>
          cases h3 : inviteSection j <;>
            simp [get_filtered_event, hx, h1, h2, h3]
    · have hx : otkSection j = none := by rw [otkSection, h]
      cases h1 : concatMapM (timelineRoomEvents j) (get_unique_list f.timeline_rooms) <;>
        cases h2 : concatMapM (ephemeralRoomEvents j) (get_unique_list f.ephemeral_rooms) <;>
          cases h3 : inviteSection j <;> cases h4 : toDeviceSection j <;>
            simp [get_filtered_event, hx, h1, h2, h3, h4]
  · intro rooms join inv td dc hrooms hjoin hinv hinvf htd htdf hdc hdcf hjoinempty
    have htl : ∀ rid, timelineRoomEvents j rid = some [] := by
      intro rid
      rw [timelineRoomEvents, hrooms]
      cases rid with
      | none => simp [hjoin]
      | some r => simp [hjoin, hjoinempty r]
    have heph : ∀ rid, ephemeralRoomEvents j rid = some [] := by
      intro rid
      rw [ephemeralRoomEvents, hrooms]
      cases rid with
      | none => simp [hjoin]
      | some r => simp [hjoin, hjoinempty r]
    have hconst : ∀ (g : Option String → Option (List FEvent)),
        (∀ rid, g rid = some []) → ∀ xs : List (Option String), concatMapM g xs = some [] := by
      intro g hg xs
      induction xs with
      | nil => rfl
      | cons x xs ih => rw [concatMapM, hg x, ih]; rfl
    have h3 : inviteSection j = some [] := by
      rw [inviteSection, hrooms]
      simp [hinv, hinvf]
    have h4 : toDeviceSection j = some [] := by
      rw [toDeviceSection, htd]
      simp [htdf]
    have h5 : otkSection j = some [] := by
      rw [otkSection, hdc]
      simp [hdcf]
    rw [get_filtered_event, hconst _ htl _, hconst _ heph _, h3, h4, h5]
    rfl

/-- C5 amended-claim witness at concrete inputs: a response missing
`to_device` raises; a response with present-but-falsy sections yields
`some []` without error. -/
theorem get_filtered_event_absent_sections_witness :
    get_filtered_event EventFilter.empty
        (Json.obj [("rooms", Json.obj [("join", Json.obj []), ("invite", Json.obj [])])]) =
      none ∧
    get_filtered_event (set_filter EventFilter.empty "message" (some "!r"))
        (Json.obj [("rooms", Json.obj [("join", Json.obj []), ("invite", Json.obj [])]),
                   ("to_device", Json.obj []), ("device_one_time_keys_count", Json.num 0)]) =
      some [] :=
  ⟨(get_filtered_event_absent_sections EventFilter.empty _).1 (Or.inr (Or.inl rfl)),
   (get_filtered_event_absent_sections _ _).2 _ _ _ _ _ rfl rfl rfl rfl rfl rfl rfl rfl
     (fun _ => rfl)⟩

end Aiomatrix

namespace Aiomatrix

/-! ## Theorems about the sync poll loop (claim C7) -/

/-- The last element of a list is one of its elements. -/
theorem mem_of_lastOf : ∀ {l : List α} {a : α}, lastOf l = some a → a ∈ l
  | [], _, h => by rw [lastOf] at h; exact absurd h (by simp)
  | [x], a, h => by
    rw [lastOf] at h
    injection h with h
    exact h ▸ List.mem_singleton.mpr rfl
  | x :: y :: ys, a, h => by
    rw [lastOf] at h
    exact List.mem_cons_of_mem x (mem_of_lastOf h)

/-- The poll loop's cursor/event behaviour over well-formed responses:
the final token is the last response's `next_batch` (or the start token
for an empty run) and the pushed events are the concatenation of each
response's extraction. -/
theorem syncLoop_spec (f : EventFilter) (rs : List Json) : ∀ (t : Json),
    (∀ j ∈ rs, ∃ nb, j.get "next_batch" = some nb) →
    (∀ j ∈ rs, (get_filtered_event f j).isSome) →
    ∃ nb' evs, syncLoop f (some t) rs = some (some nb', evs) ∧
      (rs = [] → nb' = t) ∧
      (rs ≠ [] → nextBatchOfLast rs = some nb') ∧
      concatMapM (get_filtered_event f) rs = some evs := by
  induction rs with
  | nil =>
    intro t _ _
    exact ⟨t, [], rfl, fun _ => rfl, fun h => absurd rfl h, rfl⟩
  | cons r rs ih =>
    intro t hnb hext
    obtain ⟨nb, hnbr⟩ := hnb r (List.mem_cons_self r rs)
    obtain ⟨evs0, hevs0⟩ := Option.isSome_iff_exists.mp (hext r (List.mem_cons_self r rs))
    obtain ⟨nb', evs', hloop, hnil, hlast, hcat⟩ :=
      ih nb (fun j hj => hnb j (List.mem_cons_of_mem r hj))
        (fun j hj => hext j (List.mem_cons_of_mem r hj))
    refine ⟨nb', evs0 ++ evs', ?_, fun h => absurd h (by simp), ?_, ?_⟩
    · simp only [syncLoop, pollOnce, hnbr, hevs0, hloop]
    · intro _
      cases rs with
      | nil =>
        rw [nextBatchOfLast, lastOf, Option.some_bind, hnbr, hnil rfl]
      | cons r2 rs2 =>
        have hl := hlast (by simp)
        rw [nextBatchOfLast] at hl ⊢
        rw [lastOf]
        exact hl
    · rw [concatMapM, hevs0, hcat]

/-- C7: the sync poll loop's cursor management.  Starting with no since
token (`None`, the initial state), `sync_task` performs exactly one
priming sync: the first response's `next_batch` becomes the cursor and
its payload is discarded (no events from it are pushed).  Every
subsequent successful poll stores that response's `next_batch`
unconditionally, so the final cursor is the last response's `next_batch`
even when extraction yields no events; and a poll-loop restart — a new
`sync_task` run with the `AioMatrixApi` state it left behind — finds a
truthy token, performs zero priming syncs and leaves the cursor
untouched. -/
theorem sync_task_cursor (f : EventFilter) (r : Json) (rs : List Json)
    (hnb : ∀ j ∈ r :: rs, ∃ nb, j.get "next_batch" = some nb ∧ nb.truthy = true)
    (hext : ∀ j ∈ rs, (get_filtered_event f j).isSome) :
    ∃ nb evs, sync_task f none (r :: rs) = some (some nb, evs, 1) ∧
      nextBatchOfLast (r :: rs) = some nb ∧
      concatMapM (get_filtered_event f) rs = some evs ∧
      tokenTruthy (some nb) = true ∧
      sync_task f (some nb) [] = some (some nb, [], 0) := by
  obtain ⟨nb0, hnb0, hnb0t⟩ := hnb r (List.mem_cons_self r rs)
  obtain ⟨nb', evs, hloop, hnil, hlast, hcat⟩ :=
    syncLoop_spec f rs nb0
      (fun j hj => (hnb j (List.mem_cons_of_mem r hj)).imp (fun _ h => h.1)) hext
  have htruthy : nb'.truthy = true := by
    cases rs with
    | nil =>
      rw [hnil rfl]
      exact hnb0t
    | cons r2 rs2 =>
      have hl := hlast (by simp)
      rw [nextBatchOfLast] at hl
      obtain ⟨jl, hjl, hfjl⟩ := Option.bind_eq_some.mp hl
      obtain ⟨nb2, hnb2, hnb2t⟩ :=
        hnb jl (List.mem_cons_of_mem r (mem_of_lastOf hjl))
      rw [hnb2] at hfjl
      injection hfjl with hfjl
      exact hfjl ▸ hnb2t
  refine ⟨nb', evs, ?_, ?_, hcat, ?_, ?_⟩
  · simp [sync_task, tokenTruthy, hnb0, hloop]
  · cases rs with
    | nil =>
      rw [nextBatchOfLast, lastOf, Option.some_bind, hnb0, hnil rfl]
    | cons r2 rs2 =>
      have hl := hlast (by simp)
      rw [nextBatchOfLast] at hl ⊢
      rw [lastOf]
      exact hl
  · simpa [tokenTruthy] using htruthy
  · rw [sync_task, if_pos (by simpa [tokenTruthy] using htruthy)]
    rfl

/-- C7 witness at a concrete input: a fresh engine (no token) given a
priming response and one empty poll response stores cursor `"s2"`,
pushes no events, primes exactly once, and a restart with that cursor
does not re-prime. -/
theorem sync_task_cursor_witness :
    ∃ nb evs, sync_task EventFilter.empty none (primingResp :: [emptyPollResp]) =
        some (some nb, evs, 1) ∧
      nextBatchOfLast (primingResp :: [emptyPollResp]) = some nb ∧
      concatMapM (get_filtered_event EventFilter.empty) [emptyPollResp] = some evs ∧
      tokenTruthy (some nb) = true ∧
      sync_task EventFilter.empty (some nb) [] = some (some nb, [], 0) :=
  sync_task_cursor EventFilter.empty primingResp [emptyPollResp]
    (by
      intro j hj
      rcases List.mem_cons.mp hj with h | h
      · exact ⟨Json.str "s1", by rw [h]; exact ⟨rfl, by decide⟩⟩
      · rcases List.mem_singleton.mp h with h
        exact ⟨Json.str "s2", by rw [h]; exact ⟨rfl, by decide⟩⟩)
    (by
      intro j hj
      rcases List.mem_singleton.mp hj with h
      rw [h]
      rfl)

end Aiomatrix

namespace Aiomatrix

/-! ## Theorems about `activate_encryption` (claim C3) -/

/-- Devices whose one-time-key claims all succeed are all bootstrapped,
with no error. -/
theorem bootstrapDevices_ok (otk : String → String → Option String) (uid : String)
    (ds : List String) (h : ∀ x ∈ ds, (otk uid x).isSome) :
    bootstrapDevices otk uid ds = (ds.map (fun x => (uid, x)), none) := by
  induction ds with
  | nil => rfl
  | cons x ds ih =>
    obtain ⟨k, hk⟩ := Option.isSome_iff_exists.mp (h x (List.mem_cons_self x ds))
    rw [bootstrapDevices, enc_send_megolm_info, hk,
      ih (fun y hy => h y (List.mem_cons_of_mem x hy))]
    rfl

/-- A device whose one-time-key claim fails aborts the device loop:
devices before it are bootstrapped, the `AiomatrixError` escapes, and
devices after it are not processed. -/
theorem bootstrapDevices_abort (otk : String → String → Option String) (uid : String)
    (ds1 : List String) (d : String) (ds2 : List String)
    (h1 : ∀ x ∈ ds1, (otk uid x).isSome) (h2 : otk uid d = none) :
    bootstrapDevices otk uid (ds1 ++ d :: ds2) =
      (ds1.map (fun x => (uid, x)), some (otkError uid d)) := by
  induction ds1 with
  | nil =>
    rw [List.nil_append, bootstrapDevices, enc_send_megolm_info, h2]
    rfl
  | cons x ds1 ih =>
    obtain ⟨k, hk⟩ := Option.isSome_iff_exists.mp (h1 x (List.mem_cons_self x ds1))
    rw [List.cons_append, bootstrapDevices, enc_send_megolm_info, hk,
      ih (fun y hy => h1 y (List.mem_cons_of_mem x hy))]
    rfl

/-- C3 (amended): per-device failures are *not* isolated.  If, during the
member loop of `activate_encryption`, the one-time-key claim fails for
device `d` of user `u` (all earlier members' devices succeeding), the
call raises `AiomatrixError` naming that user and device — the failure is
surfaced, not swallowed — but the whole activation aborts there: exactly
the devices processed before the failing one are bootstrapped, and the
failing user's remaining devices and all later members are skipped. -/
theorem activate_encryption_members_abort (otk : String → String → Option String)
    (own : String) (deviceIds : String → List String) (us1 : List String) (u : String)
    (us2 : List String) (ds1 : List String) (d : String) (ds2 : List String)
    (hok : ∀ v ∈ us1, v ≠ own → ∀ x ∈ deviceIds v, (otk v x).isSome)
    (hu : u ≠ own) (hdev : deviceIds u = ds1 ++ d :: ds2)
    (h1 : ∀ x ∈ ds1, (otk u x).isSome) (h2 : otk u d = none) :
    activate_encryption_members otk own deviceIds (us1 ++ u :: us2) =
      (memberDevs own deviceIds us1 ++ ds1.map (fun x => (u, x)), some (otkError u d)) := by
  induction us1 with
  | nil =>
    rw [List.nil_append, activate_encryption_members, if_neg hu, hdev,
      bootstrapDevices_abort otk u ds1 d ds2 h1 h2, memberDevs, List.nil_append]
  | cons v us1 ih =>
    rw [List.cons_append, activate_encryption_members, memberDevs]
    by_cases hv : v = own
    · rw [if_pos hv, if_pos hv]
      exact ih (fun w hw => hok w (List.mem_cons_of_mem v hw))
    · rw [if_neg hv, if_neg hv,
        bootstrapDevices_ok otk v (deviceIds v)
          (hok v (List.mem_cons_self v us1) hv),
        ih (fun w hw => hok w (List.mem_cons_of_mem v hw)), List.append_assoc]

/-- C3 (counterexample): the claim as stated is false.  With member
`"@a:hs"` having devices `D1` (no one-time keys) and `D2` (keys
available), the activation aborts on `D1` with the
`AiomatrixError` and bootstraps *no* device — in particular `D2`, in the
same activation call, is not bootstrapped. -/
theorem activation_aborts_on_first_missing_otk :
    activate_encryption_members
        (fun u d => if u = "@a:hs" ∧ d = "D1" then none else some "otk")
        "@me:hs" (fun _ => ["D1", "D2"]) ["@me:hs", "@a:hs"] =
      ([], some (otkError "@a:hs" "D1")) ∧
    (if "@a:hs" = "@a:hs" ∧ "D2" = "D1" then none else some "otk") = some "otk" := by
  decide

/-- C3 amended-claim witness at a concrete input: member `"@a:hs"` with
devices `[D1, D2, D3]` where `D2`'s claim fails — `D1` is bootstrapped,
the error names `D2`, `D3` and the later member `"@b:hs"` are skipped. -/
theorem activate_encryption_members_abort_witness :
    activate_encryption_members (fun _ d => if d = "D2" then none else some "k")
        "@me:hs" (fun _ => ["D1", "D2", "D3"]) ["@a:hs", "@b:hs"] =
      ([("@a:hs", "D1")], some (otkError "@a:hs" "D2")) :=
  activate_encryption_members_abort (fun _ d => if d = "D2" then none else some "k")
    "@me:hs" (fun _ => ["D1", "D2", "D3"]) [] "@a:hs" ["@b:hs"] ["D1"] "D2" ["D3"]
    (by intro v hv; exact absurd hv (by simp)) (by decide) rfl
    (by intro x hx; rcases List.mem_singleton.mp hx with rfl; decide) (by decide)

end Aiomatrix

namespace Aiomatrix

/-! ## Theorems about `wait_enc_message` (claim C6) -/

/-- C6 (amended): the handler's behaviour for one encrypted message.
When the inbound group session is not found, it sleeps the bounded
5-second interval and retries the lookup exactly once; if the session is
still missing it *silently* drops the message — no error reaches the
caller or any subscriber, but also no log records the drop: the only log
line is the receipt debug message emitted for every encrypted message.
If the first or the retried lookup finds the session and the plaintext is
well-formed, the decrypted body is re-injected into the general queue as
a `("message", room, sender, body)` tuple. -/
theorem wait_enc_message_once_spec
    (keys1 keys2 : Json × Json × Json → Option (Json → Option Json))
    (room sender ct dev sid : Json) :
    (keys1 (sender, dev, sid) = none → keys2 (sender, dev, sid) = none →
      wait_enc_message_once keys1 keys2 room sender ct dev sid =
        { logs := [(receiptLogLine, room)], slept := true, lookups := 2,
          injected := [], taskError := false }) ∧
    (∀ ses plain body, keys1 (sender, dev, sid) = none →
      keys2 (sender, dev, sid) = some ses → ses ct = some plain →
      (plain.get "content").bind (fun c => c.get "body") = some body →
      wait_enc_message_once keys1 keys2 room sender ct dev sid =
        { logs := [(receiptLogLine, room)], slept := true, lookups := 2,
          injected := [("message", room, sender, body)], taskError := false }) ∧
    (∀ ses plain body, keys1 (sender, dev, sid) = some ses → ses ct = some plain →
      (plain.get "content").bind (fun c => c.get "body") = some body →
      wait_enc_message_once keys1 keys2 room sender ct dev sid =
        { logs := [(receiptLogLine, room)], slept := false, lookups := 1,
          injected := [("message", room, sender, body)], taskError := false }) := by
  refine ⟨?_, ?_, ?_⟩
  · intro h1 h2
    simp only [wait_enc_message_once, h1, h2]
  · intro ses plain body h1 h2 hd hb
    simp only [wait_enc_message_once, h1, h2, finishDecrypt, hd, hb]
  · intro ses plain body h1 hd hb
    simp only [wait_enc_message_once, h1, finishDecrypt, hd, hb]

/-- C6 (counterexample): when the session is missing at both lookups the
message is dropped with *no* log of the condition — the handler's entire
log output is the receipt debug line that precedes the lookup, so the
claim's "drops the message and logs the condition" fails on the code
(the rest of the claim — one retry, no error escalated — holds, as the
same result shows: two lookups, slept, no injection, no task error). -/
theorem enc_message_drop_unlogged :
    wait_enc_message_once (fun _ => none) (fun _ => none)
      (Json.str "!r") (Json.str "@s") (Json.str "CT") (Json.str "DEV") (Json.str "SID") =
      { logs := [(receiptLogLine, Json.str "!r")], slept := true, lookups := 2,
        injected := [], taskError := false } := rfl

/-- C6 amended-claim witness at a concrete input: first lookup misses,
the retry finds the session, and the decrypted body is re-injected. -/
theorem wait_enc_message_once_spec_witness :
    wait_enc_message_once (fun _ => none)
        (fun _ => some (fun _ => some (Json.obj [("content", Json.obj [("body", Json.str "hi")])])))
        (Json.str "!r") (Json.str "@s") (Json.str "CT") (Json.str "D") (Json.str "S") =
      { logs := [(receiptLogLine, Json.str "!r")], slept := true, lookups := 2,
        injected := [("message", Json.str "!r", Json.str "@s", Json.str "hi")],
        taskError := false } :=
  (wait_enc_message_once_spec (fun _ => none)
      (fun _ => some (fun _ => some (Json.obj [("content", Json.obj [("body", Json.str "hi")])])))
      (Json.str "!r") (Json.str "@s") (Json.str "CT") (Json.str "D") (Json.str "S")).2.1
    (fun _ => some (Json.obj [("content", Json.obj [("body", Json.str "hi")])]))
    (Json.obj [("content", Json.obj [("body", Json.str "hi")])]) (Json.str "hi")
    rfl rfl rfl rfl

end Aiomatrix

namespace Aiomatrix

/-! ## Theorems about `send_message` persistence (claim C2) -/

/-- C2: evaluation at the failing input.  A `Room` constructed from an
existing pickle whose outbound group session was stored at ratchet 5
(the state `set_meg_ses` persists) loads `meg_ses` but — because of the
`continue` in `Room.__init__` — does **not** re-register it in
`room_keys`.  The next `send_message` advances the in-memory ratchet to
6 and then persists `room_keys`, which no longer contains the outbound
session: the pickle file is overwritten with an empty dict, so the
advanced ratchet (indeed the whole outbound session) is not durably
stored when the operation returns, and the in-memory ratchet is ahead of
the persisted state.  By contrast, in the fresh-activation state
produced by `set_meg_ses` itself, `send_message` persists the advanced
ratchet correctly — the persist step runs after the send and before
returning. -/
theorem send_message_after_restart_drops_outbound :
    loadRoom [(⟨"@me:hs", "DEV", none⟩, 5)] =
      { is_encrypted := true, has_meg_ses := true, ratchet := 5, room_keys := [],
        store := some [(⟨"@me:hs", "DEV", none⟩, 5)] } ∧
    send_message (loadRoom [(⟨"@me:hs", "DEV", none⟩, 5)]) =
      some ({ is_encrypted := true, has_meg_ses := true, ratchet := 6, room_keys := [],
              store := some [] }, [SendStep.encSend, SendStep.persist]) ∧
    storeLookup { is_encrypted := true, has_meg_ses := true, ratchet := 6,
                  room_keys := ([] : List (RoomKeyId × MegSession)), store := some [] }
        ⟨"@me:hs", "DEV", none⟩ = none ∧
    send_message (set_meg_ses ⟨true, false, 0, [], none⟩ "@me:hs" "DEV" 0) =
      some ({ is_encrypted := true, has_meg_ses := true, ratchet := 1,
              room_keys := [(⟨"@me:hs", "DEV", none⟩, MegSession.outbound)],
              store := some [(⟨"@me:hs", "DEV", none⟩, 1)] },
            [SendStep.encSend, SendStep.persist]) := by
  decide

end Aiomatrix

namespace Aiomatrix

/-! ## Theorems about persistence mirroring (claim C10) -/

/-- Pickling every entry of an association list leaves its key list
unchanged. -/
theorem map_fst_map_pickle (g : α → β) (d : List (κ × α)) :
    (d.map (fun p => (p.1, g p.2))).map Prod.fst = d.map Prod.fst := by
  induction d with
  | nil => rfl
  | cons p d ih => simp only [List.map_cons, ih]

/-- Looking a key up in the pickled association list is looking it up in
the original and pickling the result. -/
theorem dictLookup_map_pickle [DecidableEq κ] (g : α → β) (d : List (κ × α)) (q : κ) :
    dictLookup (d.map (fun p => (p.1, g p.2))) q = (dictLookup d q).map g := by
  induction d with
  | nil => rfl
  | cons p d ih =>
    rw [List.map_cons]
    by_cases h : p.1 = q
    · rw [dictLookup, dictLookup, List.find?_cons_of_pos _ (by simpa using h),
        List.find?_cons_of_pos _ (by simpa using h)]
      rfl
    · rw [dictLookup, dictLookup, List.find?_cons_of_neg _ (by simpa using h),
        List.find?_cons_of_neg _ (by simpa using h)]
      exact ih

/-- Replacing the value at a key leaves the key list of an association
list unchanged. -/
theorem map_fst_dictReplace [DecidableEq κ] (d : List (κ × α)) (k : κ) (v : α) :
    (d.map (fun p => if p.1 = k then (k, v) else p)).map Prod.fst = d.map Prod.fst := by
  induction d with
  | nil => rfl
  | cons p d ih =>
    simp only [List.map_cons, ih]
    by_cases hp : p.1 = k
    · subst hp
      simp
    · simp [if_neg hp]

/-- Python dict assignment preserves key uniqueness. -/
theorem dictUpdate_keys_nodup [DecidableEq κ] (d : List (κ × α)) (k : κ) (v : α)
    (h : (d.map Prod.fst).Nodup) : ((dictUpdate d k v).map Prod.fst).Nodup := by
  rw [dictUpdate]
  split
  · rw [map_fst_dictReplace]
    exact h
  · rename_i hc
    have hk : k ∉ d.map Prod.fst := by
      intro hm
      exact hc (List.contains_iff_exists_mem_beq.mpr ⟨k, hm, beq_self_eq_true k⟩)
    rw [List.map_append]
    simp only [List.map_cons, List.map_nil]
    refine List.Nodup.append h (List.nodup_singleton k) ?_
    intro a ha hb
    rw [List.mem_singleton.mp hb] at ha
    exact hk ha

/-- C10: every mutator of a session dict re-serializes the whole
collection, so at the end of each call the persisted store is exactly
the pickled in-memory dict: it has the same key list (hence exactly one
entry per key, uniqueness being preserved by dict assignment), and each
key maps to the pickled form of the in-memory session.  This holds for
`Session.set_olm_session` (the `olmSessions` pickle) and for
`Room.set_room_key` (the per-room `megOlmSessions_<room_id>` pickle);
`Room.set_meg_ses` is `set_room_key` applied to the own outbound-session
entry, so it is covered by the same fact. -/
theorem mutators_persist_whole_dict {α β : Type} (pickle : α → β) (s : OlmStore α β)
    (uid key : String) (ses : α) (hnd : (s.olm_sessions.map Prod.fst).Nodup)
    (st : RoomState) (k : RoomKeyId) (v : MegSession)
    (hnd2 : (st.room_keys.map Prod.fst).Nodup) (ou od : String) (fr : Nat) :
    ((set_olm_session pickle s uid key ses).store =
        some ((set_olm_session pickle s uid key ses).olm_sessions.map
          (fun p => (p.1, pickle p.2))) ∧
      ((set_olm_session pickle s uid key ses).olm_sessions.map Prod.fst).Nodup ∧
      (((set_olm_session pickle s uid key ses).olm_sessions.map
          (fun p => (p.1, pickle p.2))).map Prod.fst) =
        ((set_olm_session pickle s uid key ses).olm_sessions.map Prod.fst) ∧
      (∀ q, dictLookup ((set_olm_session pickle s uid key ses).olm_sessions.map
          (fun p => (p.1, pickle p.2))) q =
        (dictLookup (set_olm_session pickle s uid key ses).olm_sessions q).map pickle)) ∧
    ((set_room_key st k v).store =
        some ((set_room_key st k v).room_keys.map
          (fun p => (p.1, pickleMeg st.ratchet p.2))) ∧
      ((set_room_key st k v).room_keys.map Prod.fst).Nodup ∧
      (((set_room_key st k v).room_keys.map
          (fun p => (p.1, pickleMeg st.ratchet p.2))).map Prod.fst) =
        ((set_room_key st k v).room_keys.map Prod.fst) ∧
      (∀ q, dictLookup ((set_room_key st k v).room_keys.map
          (fun p => (p.1, pickleMeg st.ratchet p.2))) q =
        (dictLookup (set_room_key st k v).room_keys q).map (pickleMeg st.ratchet))) ∧
    set_meg_ses st ou od fr =
      set_room_key { st with has_meg_ses := true, ratchet := fr }
        ⟨ou, od, none⟩ MegSession.outbound := by
  refine ⟨⟨rfl, dictUpdate_keys_nodup _ _ _ hnd, map_fst_map_pickle _ _,
      fun q => dictLookup_map_pickle _ _ q⟩,
    ⟨rfl, dictUpdate_keys_nodup _ _ _ hnd2, map_fst_map_pickle _ _,
      fun q => dictLookup_map_pickle _ _ q⟩,
    rfl⟩

/-- C10 witness at a concrete input: sessions are numbers, pickling adds
100; after `set_olm_session` and `set_room_key` the stores hold exactly
the pickled dicts. -/
theorem mutators_persist_whole_dict_witness :
    (set_olm_session (fun n : Nat => n + 100)
        { olm_sessions := [(("@a:hs", "KEY"), 7)], store := some [(("@a:hs", "KEY"), 107)] }
        "@b:hs" "KEY2" 9).store =
      some [(("@a:hs", "KEY"), 107), (("@b:hs", "KEY2"), 109)] ∧
    (set_room_key
        { is_encrypted := true, has_meg_ses := true, ratchet := 3,
          room_keys := [(⟨"@me:hs", "DEV", none⟩, MegSession.outbound)],
          store := some [(⟨"@me:hs", "DEV", none⟩, 3)] }
        ⟨"@a:hs", "D1", some "S1"⟩ (MegSession.inbound 42)).store =
      some [(⟨"@me:hs", "DEV", none⟩, 3), (⟨"@a:hs", "D1", some "S1"⟩, 42)] := by
  have h := mutators_persist_whole_dict (fun n : Nat => n + 100)
    { olm_sessions := [(("@a:hs", "KEY"), 7)], store := some [(("@a:hs", "KEY"), 107)] }
    "@b:hs" "KEY2" 9 (by decide)
    { is_encrypted := true, has_meg_ses := true, ratchet := 3,
      room_keys := [(⟨"@me:hs", "DEV", none⟩, MegSession.outbound)],
      store := some [(⟨"@me:hs", "DEV", none⟩, 3)] }
    ⟨"@a:hs", "D1", some "S1"⟩ (MegSession.inbound 42) (by decide) "@me:hs" "DEV" 0

  exact ⟨by rw [h.1.1]; decide, by rw [h.2.1.1]; decide⟩

end Aiomatrix
